import Mathlib

/-!
Shallow embedding of the per-room cursor actor (`CursorDO`) from
`src/main.js` of the cursordo repository.

The actor keeps two JavaScript `Map`s:
  * `sessions` : sessionId → { webSocket, color }   (line 8)
  * `cursors`  : sessionId → { x, y, color }        (line 9)
and reacts to three kinds of events on a connection:
  * `handleSession` (join, lines 32-47): generate a sessionId and color,
    register the session, send an `init` message with the current cursors
    snapshot, and install message/close listeners that capture
    `sessionId` and `color` in their closure.
  * a `message` event (lines 49-73): parse the payload; when
    `data.type === "cursor"`, overwrite `cursors[sessionId]` with
    `{x: data.x, y: data.y, color}` and broadcast a `cursor` message to
    every other registered session.  Parse errors are swallowed by the
    surrounding try/catch.
  * a `close` event (lines 75-84): delete the session from both maps and
    broadcast a `leave` message.
`broadcast` (lines 87-101) iterates over `sessions`, skips the sender's
sessionId, and on a failed send deletes the recipient from both maps
without issuing any further message.

JavaScript `Map`s are modelled as association lists with `Map`
semantics (`mapSet` overwrites in place or appends, `mapDelete` removes
the key, `mapGet` finds the first binding).  The random UUID and random
color of a join, the payload of a message, and the set of connections
whose `send` throws during an event are inputs of the corresponding
event.  The closure-captured `(sessionId, color)` pairs of the
installed listeners are kept in a `handlers` map keyed by the
connection handle; it only grows, mirroring the fact that listeners
stay attached for the lifetime of the webSocket object even after the
session was evicted from `sessions`.
-/

/-- A JavaScript value as it can appear in a parsed JSON client message
field.  The server never computes with `x`/`y`, it only stores and
re-serializes them, so the carrier is opaque. -/
inductive JVal where
  | null
  | undefined
  | bool (b : Bool)
  | num (n : Int)
  | str (s : String)
  deriving DecidableEq, Repr

/-- Result of `JSON.parse` on an inbound client message, restricted to
the fields the repository ever mentions.  The server reads only `type`,
`x` and `y` (lines 53-68); `sessionId` and `color` model
client-supplied fields that the server must ignore.  A field absent
from the JSON object reads as `JVal.undefined`. -/
structure ClientData where
  type : JVal
  x : JVal
  y : JVal
  sessionId : JVal
  color : JVal
  deriving DecidableEq, Repr

/-- A `cursors` map entry `{x, y, color}` (lines 55-59). -/
structure Cursor where
  x : JVal
  y : JVal
  color : String
  deriving DecidableEq, Repr

/-- A `sessions` map entry `{ webSocket, color }` (line 38); the
webSocket handle is a bare identifier. -/
structure SessionEntry where
  wsId : Nat
  color : String
  deriving DecidableEq, Repr

/-- The `(sessionId, color)` pair captured by the closures of the
message/close listeners installed in `handleSession` (lines 35-36). -/
structure Handler where
  sid : String
  color : String
  deriving DecidableEq, Repr

/-- Messages the server sends (lines 41-47, 62-68, 80-83), kept
structured rather than JSON-serialized. -/
inductive ServerMsg where
  | init (sessionId : String) (cursors : List (String × Cursor))
  | cursor (sessionId : String) (x y : JVal) (color : String)
  | leave (sessionId : String)
  deriving DecidableEq, Repr

/-- One attempted `webSocket.send`: the destination connection handle,
the message, and whether the send succeeded (`ok = false` models the
`send` throwing, caught at lines 94-98). -/
structure Sent where
  dest : Nat
  msg : ServerMsg
  ok : Bool
  deriving DecidableEq, Repr

/-- `Map.prototype.get`. -/
def mapGet {α β : Type} [DecidableEq α] : List (α × β) → α → Option β
  | [], _ => none
  | (k, v) :: rest, k0 => if k = k0 then some v else mapGet rest k0

/-- `Map.prototype.set`: overwrite in place when the key is present,
append otherwise. -/
def mapSet {α β : Type} [DecidableEq α] : List (α × β) → α → β → List (α × β)
  | [], k0, v0 => [(k0, v0)]
  | (k, v) :: rest, k0, v0 =>
      if k = k0 then (k0, v0) :: rest else (k, v) :: mapSet rest k0 v0

/-- `Map.prototype.delete`. -/
def mapDelete {α β : Type} [DecidableEq α] : List (α × β) → α → List (α × β)
  | [], _ => []
  | (k, v) :: rest, k0 =>
      if k = k0 then mapDelete rest k0 else (k, v) :: mapDelete rest k0

/-- `Map.prototype.has`. -/
def mapHas {α β : Type} [DecidableEq α] (m : List (α × β)) (k : α) : Bool :=
  (mapGet m k).isSome

/-- The state of one `CursorDO` instance: the two maps of lines 8-9
plus the closure environments of the listeners installed so far. -/
structure RoomState where
  sessions : List (String × SessionEntry)
  cursors : List (String × Cursor)
  handlers : List (Nat × Handler)
  deriving DecidableEq, Repr

/-- The state of a freshly constructed `CursorDO` (lines 5-10). -/
def initialRoom : RoomState :=
  { sessions := [], cursors := [], handlers := [] }

/-- The loop of `broadcast` (lines 90-100) over a snapshot of the
`sessions` entries: skip the sender's sessionId, attempt the send, and
on failure delete the recipient from both `sessions` and `cursors`.
(Deleting the entry currently being visited does not affect which
entries a JS `Map` iterator still yields, so folding over the entry
list taken at loop entry is faithful.)  `fails` is the set of
connection handles whose `send` throws. -/
def broadcastLoop (entries : List (String × SessionEntry)) (sender : String)
    (msg : ServerMsg) (fails : List Nat) (s : RoomState) :
    RoomState × List Sent :=
  match entries with
  | [] => (s, [])
  | (sid, sess) :: rest =>
      if sid = sender then
        broadcastLoop rest sender msg fails s
      else if sess.wsId ∈ fails then
        let s1 := { s with sessions := mapDelete s.sessions sid,
                           cursors := mapDelete s.cursors sid }
        let r := broadcastLoop rest sender msg fails s1
        (r.1, ⟨sess.wsId, msg, false⟩ :: r.2)
      else
        let r := broadcastLoop rest sender msg fails s
        (r.1, ⟨sess.wsId, msg, true⟩ :: r.2)

/-- `broadcast(senderSessionId, message)` (lines 87-101). -/
def broadcast (sender : String) (msg : ServerMsg) (fails : List Nat)
    (s : RoomState) : RoomState × List Sent :=
  broadcastLoop s.sessions sender msg fails s

/-- An externally triggered event on the room:
  * `join sid ws color fails` — `handleSession` runs on connection `ws`
    with `crypto.randomUUID()` returning `sid` and the random color
    draw returning `color`; `fails` tells whether the `init` send
    throws.
  * `message ws data fails` — the message listener of connection `ws`
    fires; `data = none` models a payload on which `JSON.parse` throws.
  * `close ws fails` — the close listener of connection `ws` fires. -/
inductive Event where
  | join (sid : String) (ws : Nat) (color : String) (fails : List Nat)
  | message (ws : Nat) (data : Option ClientData) (fails : List Nat)
  | close (ws : Nat) (fails : List Nat)
  deriving DecidableEq, Repr

/-- Process one event, returning the new state and the list of send
attempts it performed, in order.

`join`: lines 32-47 — register the session, then send `init` with the
sessionId and the current `cursors` snapshot
(`Object.fromEntries(this.cursors)` is a point-in-time copy); when that
send throws, `handleSession` aborts before installing the listeners.
`message`: lines 49-73 — no listener on this connection means no
reaction; a parse error is caught; on `data.type === "cursor"` the
closure's sessionId entry of `cursors` is overwritten with
`{x: data.x, y: data.y, color}` and a `cursor` message is broadcast.
The handler does not consult `sessions`.
`close`: lines 75-84 — delete the closure's sessionId from both maps,
then broadcast `leave`. -/
def step (s : RoomState) (e : Event) : RoomState × List Sent :=
  match e with
  | .join sid ws color fails =>
      let s1 := { s with sessions := mapSet s.sessions sid ⟨ws, color⟩ }
      if ws ∈ fails then
        (s1, [⟨ws, .init sid s1.cursors, false⟩])
      else
        ({ s1 with handlers := s1.handlers ++ [(ws, ⟨sid, color⟩)] },
         [⟨ws, .init sid s1.cursors, true⟩])
  | .message ws data fails =>
      match mapGet s.handlers ws with
      | none => (s, [])
      | some h =>
          match data with
          | none => (s, [])
          | some d =>
              if d.type = .str "cursor" then
                let s1 := { s with
                  cursors := mapSet s.cursors h.sid ⟨d.x, d.y, h.color⟩ }
                broadcast h.sid (.cursor h.sid d.x d.y h.color) fails s1
              else
                (s, [])
  | .close ws fails =>
      match mapGet s.handlers ws with
      | none => (s, [])
      | some h =>
          let s1 := { s with sessions := mapDelete s.sessions h.sid,
                             cursors := mapDelete s.cursors h.sid }
          broadcast h.sid (.leave h.sid) fails s1

/-- Process a list of events from a starting state, collecting all send
attempts in order. -/
def run (s : RoomState) (es : List Event) : RoomState × List Sent :=
  match es with
  | [] => (s, [])
  | e :: rest =>
      let r1 := step s e
      let r2 := run r1.1 rest
      (r2.1, r1.2 ++ r2.2)

/-- The sessionIds evicted by a broadcast over `entries`: the non-sender
entries whose connection's `send` throws (lines 94-98). -/
def failedKeys (entries : List (String × SessionEntry)) (sender : String)
    (fails : List Nat) : List String :=
  (entries.filter (fun p => !decide (p.1 = sender) && decide (p.2.wsId ∈ fails))).map
    Prod.fst

/-- Holds when processing event `e` in state `s` does not apply a
cursor update for a sessionId that is absent from `sessions`, i.e. the
event is not an in-flight update from a connection whose session was
already cleaned up. -/
def wfStep (s : RoomState) : Event → Bool
  | .message ws (some d) _ =>
      match mapGet s.handlers ws with
      | some h => if d.type = .str "cursor" then mapHas s.sessions h.sid else true
      | none => true
  | _ => true

/-- `wfStep` along a whole event sequence. -/
def wfTrace : RoomState → List Event → Bool
  | _, [] => true
  | s, e :: rest => wfStep s e && wfTrace (step s e).1 rest

/-- Every key of `cursors` is registered in `sessions` (the cleanup
invariant of the spec's data-model section). -/
def cursorsRegistered (s : RoomState) : Bool :=
  s.cursors.all (fun p => mapHas s.sessions p.1)

/-- Every join event in sight assigns the color prescribed by the
color-assignment function `A` (so `A` names "the color assigned at
Join" for each sessionId). -/
def colorAssignOK (A : String → String) : Event → Bool
  | .join sid _ c _ => c == A sid
  | _ => true

/-- All join events of a trace draw their colors from `A`. -/
def joinsAgree (A : String → String) (es : List Event) : Bool :=
  es.all (colorAssignOK A)

/-- A `cursors` entry carries its session's assigned color. -/
def cursorColorOK (A : String → String) (p : String × Cursor) : Bool :=
  p.2.color == A p.1

/-- A server message only mentions assigned colors: a `cursor` message
carries the color assigned to its sessionId, and every entry of an
`init` snapshot carries the color assigned to that entry's key. -/
def msgColorOK (A : String → String) : ServerMsg → Bool
  | .cursor sid _ _ c => c == A sid
  | .init _ snap => snap.all (cursorColorOK A)
  | .leave _ => true

/-- Color consistency of a state: every installed listener closure and
every `cursors` entry carries the color `A` assigns to its session. -/
def invColor (A : String → String) (s : RoomState) : Bool :=
  s.handlers.all (fun p => p.2.color == A p.2.sid) &&
    s.cursors.all (cursorColorOK A)

/-- One participant of a join-then-update scenario: its server-assigned
sessionId, connection handle and color, and the coordinates of the one
cursor update it sends. -/
structure Participant where
  sid : String
  ws : Nat
  color : String
  x : JVal
  y : JVal
  deriving DecidableEq, Repr

/-- The join events of the given participants, in order, all sends
succeeding. -/
def joinEvents (ps : List Participant) : List Event :=
  ps.map (fun p => .join p.sid p.ws p.color [])

/-- One `{"type":"cursor"}` client message per participant, in order,
all sends succeeding. -/
def updateEvents (ps : List Participant) : List Event :=
  ps.map (fun p => .message p.ws (some ⟨.str "cursor", p.x, p.y, .null, .null⟩) [])

/-- The `cursors` map expected after each participant reported its
cursor once: one entry per participant, with its coordinates and its
assigned color. -/
def expectedCursors (ps : List Participant) : List (String × Cursor) :=
  ps.map (fun p => (p.sid, ⟨p.x, p.y, p.color⟩))

/-- A concrete two-session room: "A" on connection 1 (red) and "B" on
connection 2 (blue), listeners installed, no cursor reported yet. -/
def exRoom : RoomState :=
  ⟨[("A", ⟨1, "red"⟩), ("B", ⟨2, "blue"⟩)], [],
   [(1, ⟨"A", "red"⟩), (2, ⟨"B", "blue"⟩)]⟩

/-- Concrete trace: "A" and "B" join; then "B" reports a cursor while
the send to "A"'s connection throws, so the broadcast failure path
evicts "A" from both `sessions` and `cursors`.  "A"'s connection and
its listeners remain live. -/
def evictPrefix : List Event :=
  [.join "A" 1 "red" [], .join "B" 2 "blue" [],
   .message 2 (some ⟨.str "cursor", .num 1, .num 2, .null, .null⟩) [1]]

/-- A cursor update arriving afterwards from evicted "A"'s still-open
connection: at this point "A" is no longer a registered session. -/
def lateUpdate : Event :=
  .message 1 (some ⟨.str "cursor", .num 5, .num 6, .null, .null⟩) []

/-- Concrete trace: "A" and "B" join, then "A"'s leave handling runs
twice. -/
def doubleClose : List Event :=
  [.join "A" 1 "red" [], .join "B" 2 "blue" [], .close 1 [], .close 1 []]

/-! ### Basic association-list lemmas -/

theorem mapGet_set_self {α β : Type} [DecidableEq α] (m : List (α × β)) (k : α) (v : β) :
    mapGet (mapSet m k v) k = some v := by
  induction m with
  | nil => simp [mapSet, mapGet]
  | cons hd tl ih =>
      obtain ⟨k1, v1⟩ := hd
      by_cases h : k1 = k
      · simp [mapSet, mapGet, h]
      · simp [mapSet, mapGet, h, ih]

theorem mapGet_set_ne {α β : Type} [DecidableEq α] (m : List (α × β)) (k k' : α) (v : β)
    (h : k ≠ k') : mapGet (mapSet m k v) k' = mapGet m k' := by
  induction m with
  | nil => simp [mapSet, mapGet, h]
  | cons hd tl ih =>
      obtain ⟨k1, v1⟩ := hd
      by_cases h1 : k1 = k
      · subst h1
        simp [mapSet, mapGet, h]
      · by_cases h2 : k1 = k'
        · subst h2
          simp [mapSet, mapGet, h1]
        · simp [mapSet, mapGet, h1, h2, ih]

theorem mapDelete_eq_filter {α β : Type} [DecidableEq α] (m : List (α × β)) (k : α) :
    mapDelete m k = m.filter (fun p => !decide (p.1 = k)) := by
  induction m with
  | nil => rfl
  | cons hd tl ih =>
      obtain ⟨k1, v1⟩ := hd
      by_cases h : k1 = k
      · simp [mapDelete, h, ih]
      · simp [mapDelete, h, ih]

theorem mapGet_append {α β : Type} [DecidableEq α] (m m' : List (α × β)) (k : α) :
    mapGet (m ++ m') k = ((mapGet m k).rec (mapGet m' k) (fun v => some v)) := by
  induction m with
  | nil => simp [mapGet]
  | cons hd tl ih =>
      obtain ⟨k1, v1⟩ := hd
      by_cases h : k1 = k
      · simp [mapGet, h]
      · simp [mapGet, h, ih]

theorem mapSet_of_fresh {α β : Type} [DecidableEq α] (m : List (α × β)) (k : α) (v : β)
    (h : mapGet m k = none) : mapSet m k v = m ++ [(k, v)] := by
  induction m with
  | nil => rfl
  | cons hd tl ih =>
      obtain ⟨k1, v1⟩ := hd
      by_cases h1 : k1 = k
      · simp [mapGet, h1] at h
      · simp [mapGet, h1] at h
        simp [mapSet, h1, ih h]

theorem mapDelete_of_none {α β : Type} [DecidableEq α] (m : List (α × β)) (k : α)
    (h : mapGet m k = none) : mapDelete m k = m := by
  induction m with
  | nil => rfl
  | cons hd tl ih =>
      obtain ⟨k1, v1⟩ := hd
      by_cases h1 : k1 = k
      · simp [mapGet, h1] at h
      · simp [mapGet, h1] at h
        simp [mapDelete, h1, ih h]

/-! ### Characterization of the broadcast loop -/

theorem failedKeys_nil (sender : String) (fails : List Nat) :
    failedKeys [] sender fails = [] := rfl

theorem failedKeys_no_fails (entries : List (String × SessionEntry)) (sender : String) :
    failedKeys entries sender [] = [] := by
  simp [failedKeys]

theorem filter_not_mem_nil {β : Type} (l : List (String × β)) :
    l.filter (fun p => !decide (p.1 ∈ ([] : List String))) = l := by
  induction l with
  | nil => rfl
  | cons hd tl ih => simp_all [List.filter_cons]

theorem filter_not_mem_cons {β : Type} (l : List (String × β)) (k : String)
    (ks : List String) :
    l.filter (fun p => !decide (p.1 ∈ k :: ks)) =
      (l.filter (fun p => !decide (p.1 = k))).filter (fun p => !decide (p.1 ∈ ks)) := by
  rw [List.filter_filter]
  apply List.filter_congr
  intro p _
  by_cases hk : p.1 = k
  · simp [hk]
  · by_cases hm : p.1 ∈ ks
    · simp [hk, hm]
    · simp [hk, hm]

theorem broadcastLoop_sessions (entries : List (String × SessionEntry)) (sender : String)
    (msg : ServerMsg) (fails : List Nat) (s : RoomState) :
    (broadcastLoop entries sender msg fails s).1.sessions =
      s.sessions.filter (fun p => !decide (p.1 ∈ failedKeys entries sender fails)) := by
  induction entries generalizing s with
  | nil => simp [broadcastLoop, failedKeys_nil, filter_not_mem_nil]
  | cons hd tl ih =>
      obtain ⟨sid, sess⟩ := hd
      by_cases h1 : sid = sender
      · have hfk : failedKeys ((sid, sess) :: tl) sender fails =
            failedKeys tl sender fails := by
          simp [failedKeys, List.filter_cons, h1]
        simp only [broadcastLoop, if_pos h1, ih]
        rw [hfk]
      · by_cases h2 : sess.wsId ∈ fails
        · have hfk : failedKeys ((sid, sess) :: tl) sender fails =
              sid :: failedKeys tl sender fails := by
            simp [failedKeys, List.filter_cons, h1, h2]
          simp only [broadcastLoop, if_neg h1, if_pos h2, ih, hfk, filter_not_mem_cons]
          rw [mapDelete_eq_filter]
        · have hfk : failedKeys ((sid, sess) :: tl) sender fails =
              failedKeys tl sender fails := by
            simp [failedKeys, List.filter_cons, h1, h2]
          simp [broadcastLoop, h1, h2, hfk, ih]

theorem broadcastLoop_cursors (entries : List (String × SessionEntry)) (sender : String)
    (msg : ServerMsg) (fails : List Nat) (s : RoomState) :
    (broadcastLoop entries sender msg fails s).1.cursors =
      s.cursors.filter (fun p => !decide (p.1 ∈ failedKeys entries sender fails)) := by
  induction entries generalizing s with
  | nil => simp [broadcastLoop, failedKeys_nil, filter_not_mem_nil]
  | cons hd tl ih =>
      obtain ⟨sid, sess⟩ := hd
      by_cases h1 : sid = sender
      · have hfk : failedKeys ((sid, sess) :: tl) sender fails =
            failedKeys tl sender fails := by
          simp [failedKeys, List.filter_cons, h1]
        simp only [broadcastLoop, if_pos h1, ih]
        rw [hfk]
      · by_cases h2 : sess.wsId ∈ fails
        · have hfk : failedKeys ((sid, sess) :: tl) sender fails =
              sid :: failedKeys tl sender fails := by
            simp [failedKeys, List.filter_cons, h1, h2]
          simp only [broadcastLoop, if_neg h1, if_pos h2, ih, hfk, filter_not_mem_cons]
          rw [mapDelete_eq_filter]
        · have hfk : failedKeys ((sid, sess) :: tl) sender fails =
              failedKeys tl sender fails := by
            simp [failedKeys, List.filter_cons, h1, h2]
          simp [broadcastLoop, h1, h2, hfk, ih]

theorem broadcastLoop_handlers (entries : List (String × SessionEntry)) (sender : String)
    (msg : ServerMsg) (fails : List Nat) (s : RoomState) :
    (broadcastLoop entries sender msg fails s).1.handlers = s.handlers := by
  induction entries generalizing s with
  | nil => rfl
  | cons hd tl ih =>
      obtain ⟨sid, sess⟩ := hd
      by_cases h1 : sid = sender
      · simp [broadcastLoop, h1, ih]
      · by_cases h2 : sess.wsId ∈ fails
        · simp [broadcastLoop, h1, h2, ih]
        · simp [broadcastLoop, h1, h2, ih]

theorem broadcastLoop_sends (entries : List (String × SessionEntry)) (sender : String)
    (msg : ServerMsg) (fails : List Nat) (s : RoomState) :
    (broadcastLoop entries sender msg fails s).2 =
      (entries.filter (fun p => !decide (p.1 = sender))).map
        (fun p => ⟨p.2.wsId, msg, !decide (p.2.wsId ∈ fails)⟩) := by
  induction entries generalizing s with
  | nil => rfl
  | cons hd tl ih =>
      obtain ⟨sid, sess⟩ := hd
      by_cases h1 : sid = sender
      · simp [broadcastLoop, h1, List.filter_cons, ih]
      · by_cases h2 : sess.wsId ∈ fails
        · simp [broadcastLoop, h1, h2, List.filter_cons, ih]
        · simp [broadcastLoop, h1, h2, List.filter_cons, ih]

/-! ### Further association-list lemmas -/

theorem mapGet_eq_none_iff {α β : Type} [DecidableEq α] (m : List (α × β)) (k : α) :
    mapGet m k = none ↔ k ∉ m.map Prod.fst := by
  induction m with
  | nil => simp [mapGet]
  | cons hd tl ih =>
      obtain ⟨k1, v1⟩ := hd
      by_cases h : k1 = k
      · simp [mapGet, h]
      · have hne : ¬ k = k1 := fun hh => h hh.symm
        simp only [mapGet, if_neg h, ih, List.map_cons, List.mem_cons]
        tauto

theorem mapGet_mem {α β : Type} [DecidableEq α] (m : List (α × β)) (k : α) (v : β)
    (h : mapGet m k = some v) : (k, v) ∈ m := by
  induction m with
  | nil => simp [mapGet] at h
  | cons hd tl ih =>
      obtain ⟨k1, v1⟩ := hd
      by_cases h1 : k1 = k
      · subst h1
        simp [mapGet] at h
        simp [h]
      · simp [mapGet, h1] at h
        simp [ih h]

theorem mapGet_delete_self {α β : Type} [DecidableEq α] (m : List (α × β)) (k : α) :
    mapGet (mapDelete m k) k = none := by
  induction m with
  | nil => rfl
  | cons hd tl ih =>
      obtain ⟨k1, v1⟩ := hd
      by_cases h : k1 = k
      · simp [mapDelete, h, ih]
      · simp [mapDelete, mapGet, h, ih]

theorem mapGet_delete_ne {α β : Type} [DecidableEq α] (m : List (α × β)) (k k' : α)
    (h : k' ≠ k) : mapGet (mapDelete m k) k' = mapGet m k' := by
  induction m with
  | nil => rfl
  | cons hd tl ih =>
      obtain ⟨k1, v1⟩ := hd
      by_cases h1 : k1 = k
      · have hne : ¬ k = k' := fun hh => h hh.symm
        simp [mapDelete, mapGet, h1, hne, ih]
      · simp [mapDelete, mapGet, h1, ih]

theorem mapHas_mapSet {α β : Type} [DecidableEq α] (m : List (α × β)) (k0 k : α) (v : β) :
    mapHas (mapSet m k0 v) k = (decide (k0 = k) || mapHas m k) := by
  by_cases h : k0 = k
  · subst h
    simp [mapHas, mapGet_set_self]
  · simp [mapHas, h, mapGet_set_ne m k0 k v h]

theorem mapGet_filter_not_mem {β : Type} (l : List (String × β)) (ks : List String)
    (k : String) (hk : k ∉ ks) :
    mapGet (l.filter (fun p => !decide (p.1 ∈ ks))) k = mapGet l k := by
  induction l with
  | nil => rfl
  | cons hd tl ih =>
      obtain ⟨k1, v1⟩ := hd
      by_cases h1 : k1 ∈ ks
      · have hne : ¬ k1 = k := fun hh => hk (hh ▸ h1)
        simp [List.filter_cons, h1, mapGet, hne, ih]
      · simp [List.filter_cons, h1, mapGet, ih]

theorem filter_ne_of_get_none {β : Type} (m : List (String × β)) (k : String)
    (h : mapGet m k = none) : m.filter (fun p => !decide (p.1 = k)) = m := by
  induction m with
  | nil => rfl
  | cons hd tl ih =>
      obtain ⟨k1, v1⟩ := hd
      by_cases h1 : k1 = k
      · simp [mapGet, h1] at h
      · simp [mapGet, h1] at h
        simp [List.filter_cons, h1, ih h]

theorem sender_not_mem_failedKeys (entries : List (String × SessionEntry))
    (sender : String) (fails : List Nat) : sender ∉ failedKeys entries sender fails := by
  intro hmem
  obtain ⟨p, hp, hfst⟩ := List.mem_map.mp hmem
  have hp2 := (List.mem_filter.mp hp).2
  rw [hfst] at hp2
  simp at hp2

theorem failedKeys_subset_keys (entries : List (String × SessionEntry)) (sender : String)
    (fails : List Nat) (k : String) (hk : k ∈ failedKeys entries sender fails) :
    k ∈ entries.map Prod.fst := by
  simp only [failedKeys, List.mem_map] at hk
  obtain ⟨p, hp, rfl⟩ := hk
  exact List.mem_map_of_mem Prod.fst (List.mem_of_mem_filter hp)

theorem roomState_eq_of_fields (s t : RoomState) (h1 : s.sessions = t.sessions)
    (h2 : s.cursors = t.cursors) (h3 : s.handlers = t.handlers) : s = t := by
  cases s; cases t; simp_all

/-! ### Step-level lemmas -/

theorem broadcast_no_fails_state (sender : String) (msg : ServerMsg) (s : RoomState) :
    (broadcast sender msg [] s).1 = s := by
  apply roomState_eq_of_fields
  · rw [broadcast, broadcastLoop_sessions, failedKeys_no_fails, filter_not_mem_nil]
  · rw [broadcast, broadcastLoop_cursors, failedKeys_no_fails, filter_not_mem_nil]
  · rw [broadcast, broadcastLoop_handlers]

theorem step_message_of_handler (s : RoomState) (ws : Nat) (d : ClientData)
    (fails : List Nat) (h : Handler) (hh : mapGet s.handlers ws = some h)
    (ht : d.type = .str "cursor") :
    step s (.message ws (some d) fails) =
      broadcast h.sid (.cursor h.sid d.x d.y h.color) fails
        { s with cursors := mapSet s.cursors h.sid ⟨d.x, d.y, h.color⟩ } := by
  simp [step, hh, ht]

theorem step_close_of_handler (s : RoomState) (ws : Nat) (fails : List Nat)
    (h : Handler) (hh : mapGet s.handlers ws = some h) :
    step s (.close ws fails) =
      broadcast h.sid (.leave h.sid) fails
        { s with sessions := mapDelete s.sessions h.sid,
                 cursors := mapDelete s.cursors h.sid } := by
  simp [step, hh]

theorem step_update_no_fail (s : RoomState) (ws : Nat) (d : ClientData) (h : Handler)
    (hh : mapGet s.handlers ws = some h) (ht : d.type = .str "cursor") :
    (step s (.message ws (some d) [])).1 =
      { s with cursors := mapSet s.cursors h.sid ⟨d.x, d.y, h.color⟩ } := by
  rw [step_message_of_handler s ws d [] h hh ht, broadcast_no_fails_state]

theorem run_append (s : RoomState) (es1 es2 : List Event) :
    run s (es1 ++ es2) =
      ((run (run s es1).1 es2).1, (run s es1).2 ++ (run (run s es1).1 es2).2) := by
  induction es1 generalizing s with
  | nil => simp [run]
  | cons e rest ih => simp [run, ih]

/-! ### Claims -/

/-- C4: for every Join event, no message of any kind is sent to any
session other than the joining connection itself — the send attempts of
a join are exactly one `init` to the new connection — and join does not
change `cursors`, so what peers later observe (broadcasts, snapshots)
is unaffected by a join alone: a joined session that has sent no cursor
update appears in no peer's received messages. -/
theorem c4_join_sends_only_to_joiner (s : RoomState) (sid : String) (ws : Nat)
    (color : String) (fails : List Nat) :
    ((step s (.join sid ws color fails)).2).map Sent.dest = [ws] ∧
    (step s (.join sid ws color fails)).1.cursors = s.cursors := by
  by_cases hw : ws ∈ fails <;> simp [step, hw]

/-- C6: for every broadcast, recipients whose send fails (the
`failedKeys`) are removed from both `sessions` and `cursors`; the send
attempts are exactly one attempt of the broadcast message itself per
registered non-sender session, in order — so no `leave` (or any other)
message is issued for a send-failure eviction, delivery is still
attempted to every remaining recipient, and no send is retried. -/
theorem c6_send_failure_evicts_without_leave (sender : String) (msg : ServerMsg)
    (fails : List Nat) (s : RoomState) :
    (broadcast sender msg fails s).1.sessions =
      s.sessions.filter (fun p => !decide (p.1 ∈ failedKeys s.sessions sender fails)) ∧
    (broadcast sender msg fails s).1.cursors =
      s.cursors.filter (fun p => !decide (p.1 ∈ failedKeys s.sessions sender fails)) ∧
    (broadcast sender msg fails s).2 =
      (s.sessions.filter (fun p => !decide (p.1 = sender))).map
        (fun p => ⟨p.2.wsId, msg, !decide (p.2.wsId ∈ fails)⟩) :=
  ⟨broadcastLoop_sessions s.sessions sender msg fails s,
   broadcastLoop_cursors s.sessions sender msg fails s,
   broadcastLoop_sends s.sessions sender msg fails s⟩

/-- C9: the handling of an inbound client message depends only on its
`type`, `x` and `y` fields: two parsable messages agreeing on those
fields but differing in client-supplied `sessionId` and `color` fields
produce identical state changes and identical send attempts — the
sessionId and color the server stores and broadcasts are the
server-assigned ones captured at join. -/
theorem c9_client_identity_fields_ignored (s : RoomState) (ws : Nat)
    (t x y a b c d : JVal) (fails : List Nat) :
    step s (.message ws (some ⟨t, x, y, a, b⟩) fails) =
      step s (.message ws (some ⟨t, x, y, c, d⟩) fails) := rfl

/-- C5: the broadcast triggered by a cursor update from the session
registered on connection `ws` attempts one send of the resulting
`cursor` message to every `sessions` entry whose key differs from the
updating sessionId, and to no other — in particular never to the
updating session itself. -/
theorem c5_update_broadcast_excludes_self (s : RoomState) (ws : Nat) (d : ClientData)
    (fails : List Nat) (h : Handler) (hh : mapGet s.handlers ws = some h)
    (ht : d.type = .str "cursor") :
    (step s (.message ws (some d) fails)).2 =
      (s.sessions.filter (fun p => !decide (p.1 = h.sid))).map
        (fun p => ⟨p.2.wsId, .cursor h.sid d.x d.y h.color, !decide (p.2.wsId ∈ fails)⟩) := by
  rw [step_message_of_handler s ws d fails h hh ht, broadcast, broadcastLoop_sends]

/-- Witness for C5 at a concrete input: in `exRoom`, a cursor update
arriving on connection 1 (session "A") is attempted exactly at
connection 2 (session "B") and not at connection 1. -/
theorem c5_witness :
    (step exRoom (.message 1 (some ⟨.str "cursor", .num 3, .num 4, .null, .null⟩) [])).2 =
      [⟨2, .cursor "A" (.num 3) (.num 4) "red", true⟩] := by
  rw [c5_update_broadcast_excludes_self exRoom 1
    ⟨.str "cursor", .num 3, .num 4, .null, .null⟩ [] ⟨"A", "red"⟩ rfl rfl]
  rfl

/-- C10: inbound `cursor` messages are accepted without validating the
coordinate fields: for any parsable message with `type = "cursor"`,
whatever `x` and `y` hold (non-numeric, null, or `undefined` for a
missing field) is stored verbatim in `cursors` and broadcast verbatim
to every other registered session. -/
theorem c10_no_coordinate_validation (s : RoomState) (ws : Nat) (x y sidF colF : JVal)
    (fails : List Nat) (h : Handler) (hh : mapGet s.handlers ws = some h) :
    mapGet (step s (.message ws (some ⟨.str "cursor", x, y, sidF, colF⟩) fails)).1.cursors
        h.sid = some ⟨x, y, h.color⟩ ∧
    (step s (.message ws (some ⟨.str "cursor", x, y, sidF, colF⟩) fails)).2 =
      (s.sessions.filter (fun p => !decide (p.1 = h.sid))).map
        (fun p => ⟨p.2.wsId, .cursor h.sid x y h.color, !decide (p.2.wsId ∈ fails)⟩) := by
  have hstep := step_message_of_handler s ws ⟨.str "cursor", x, y, sidF, colF⟩ fails h hh rfl
  constructor
  · rw [hstep, broadcast, broadcastLoop_cursors,
      mapGet_filter_not_mem _ _ _ (sender_not_mem_failedKeys _ _ _)]
    exact mapGet_set_self s.cursors h.sid ⟨x, y, h.color⟩
  · rw [hstep, broadcast, broadcastLoop_sends]

/-- Witness for C10 at a concrete input: in `exRoom`, a `cursor`
message from "A" with a null `x`, a string `y` and client-supplied
sessionId/color fields is stored verbatim for "A" (with "A"'s assigned
color) and broadcast verbatim to "B". -/
theorem c10_witness :
    mapGet (step exRoom
        (.message 1 (some ⟨.str "cursor", .null, .str "junk", .num 9, .bool true⟩) [])).1.cursors
        "A" = some ⟨.null, .str "junk", "red"⟩ ∧
    (step exRoom
        (.message 1 (some ⟨.str "cursor", .null, .str "junk", .num 9, .bool true⟩) [])).2 =
      [⟨2, .cursor "A" .null (.str "junk") "red", true⟩] :=
  ⟨(c10_no_coordinate_validation exRoom 1 .null (.str "junk") (.num 9) (.bool true) []
      ⟨"A", "red"⟩ rfl).1,
   ((c10_no_coordinate_validation exRoom 1 .null (.str "junk") (.num 9) (.bool true) []
      ⟨"A", "red"⟩ rfl).2).trans (by rfl)⟩

/-- C1 counterexample: the claim "an UpdateCursor for a sessionId
absent from `sessions` leaves `cursors` unchanged and issues no
broadcast" is false.  After `evictPrefix`, "A" was evicted from
`sessions` by a send failure; processing the late update from "A"'s
still-open connection nevertheless changes `cursors` and performs send
attempts: the message handler (lines 49-73) never consults
`sessions`. -/
theorem c1_counterexample :
    mapHas (run initialRoom evictPrefix).1.sessions "A" = false ∧
    (step (run initialRoom evictPrefix).1 lateUpdate).1.cursors ≠
      (run initialRoom evictPrefix).1.cursors ∧
    (step (run initialRoom evictPrefix).1 lateUpdate).2 ≠ [] := by decide

/-- C1 (amended): an UpdateCursor arriving from a connection whose
session is no longer registered in `sessions` is not dropped: the
update is applied to `cursors` under the closure's sessionId (with the
closure's color), a `cursor` broadcast is attempted at every registered
session (none of which is the sender, so nobody is excluded), and no
error is raised. -/
theorem c1_amended_unregistered_update_applied (s : RoomState) (ws : Nat)
    (d : ClientData) (fails : List Nat) (h : Handler)
    (hh : mapGet s.handlers ws = some h) (hs : mapGet s.sessions h.sid = none)
    (ht : d.type = .str "cursor") :
    mapGet (step s (.message ws (some d) fails)).1.cursors h.sid =
      some ⟨d.x, d.y, h.color⟩ ∧
    ((step s (.message ws (some d) fails)).2).map Sent.dest =
      s.sessions.map (fun p => p.2.wsId) := by
  constructor
  · rw [step_message_of_handler s ws d fails h hh ht, broadcast, broadcastLoop_cursors,
      mapGet_filter_not_mem _ _ _ (sender_not_mem_failedKeys _ _ _)]
    exact mapGet_set_self s.cursors h.sid ⟨d.x, d.y, h.color⟩
  · rw [step_message_of_handler s ws d fails h hh ht, broadcast, broadcastLoop_sends]
    dsimp only
    rw [filter_ne_of_get_none s.sessions h.sid hs]
    simp [List.map_map]

/-- Witness for the amended C1 at the concrete `evictPrefix` state:
evicted "A"'s late update is stored in `cursors` and attempted at
"B"'s connection. -/
theorem c1_amended_witness :
    mapGet (step (run initialRoom evictPrefix).1 lateUpdate).1.cursors "A" =
      some ⟨.num 5, .num 6, "red"⟩ ∧
    ((step (run initialRoom evictPrefix).1 lateUpdate).2).map Sent.dest = [2] := by
  have h := c1_amended_unregistered_update_applied (run initialRoom evictPrefix).1 1
    ⟨.str "cursor", .num 5, .num 6, .null, .null⟩ [] ⟨"A", "red"⟩ (by rfl) (by rfl) rfl
  exact ⟨h.1, h.2.trans (by rfl)⟩

/-- C7 counterexample: the claim "invoking Leave a second time produces
at most one broadcasted leave event across both invocations" is false:
in `doubleClose`, the close handling for "A" runs twice and the
remaining session "B" receives the `leave "A"` message twice, because
the close listener (lines 75-84) broadcasts unconditionally on every
invocation. -/
theorem c7_counterexample :
    (run initialRoom doubleClose).2.filter (fun m => decide (m.msg = .leave "A")) =
      [⟨2, .leave "A", true⟩, ⟨2, .leave "A", true⟩] := by decide

/-- C7 (amended): a second Leave for the same session leaves `sessions`
and `cursors` (indeed the whole state) unchanged and raises no error —
the map removals are idempotent — but it again broadcasts a `leave`
event: each invocation attempts one `leave` send per remaining session,
so two invocations produce up to two broadcasted leave events, not at
most one.  (Stated with all sends succeeding.) -/
theorem c7_amended_second_leave_rebroadcasts (s : RoomState) (ws : Nat) (h : Handler)
    (hh : mapGet s.handlers ws = some h) :
    (step (step s (.close ws [])).1 (.close ws [])).1 = (step s (.close ws [])).1 ∧
    (step (step s (.close ws [])).1 (.close ws [])).2 =
      (step s (.close ws [])).1.sessions.map
        (fun p => ⟨p.2.wsId, .leave h.sid, true⟩) := by
  have hs1 : (step s (.close ws [])).1 =
      { s with sessions := mapDelete s.sessions h.sid,
               cursors := mapDelete s.cursors h.sid } := by
    rw [step_close_of_handler s ws [] h hh, broadcast_no_fails_state]
  have hh1 : mapGet ({ s with sessions := mapDelete s.sessions h.sid,
                              cursors := mapDelete s.cursors h.sid } : RoomState).handlers
      ws = some h := hh
  have hdels : mapDelete (mapDelete s.sessions h.sid) h.sid =
      mapDelete s.sessions h.sid :=
    mapDelete_of_none _ _ (mapGet_delete_self _ _)
  have hdelc : mapDelete (mapDelete s.cursors h.sid) h.sid =
      mapDelete s.cursors h.sid :=
    mapDelete_of_none _ _ (mapGet_delete_self _ _)
  constructor
  · rw [hs1, step_close_of_handler _ ws [] h hh1, broadcast_no_fails_state]
    apply roomState_eq_of_fields
    · dsimp only
      exact hdels
    · dsimp only
      exact hdelc
    · rfl
  · rw [hs1, step_close_of_handler _ ws [] h hh1, broadcast, broadcastLoop_sends]
    dsimp only
    rw [hdels, filter_ne_of_get_none _ _ (mapGet_delete_self _ _)]
    rfl

/-- Witness for the amended C7 at the concrete room `exRoom`: closing
"A" twice fixes the state after the first close and re-sends
`leave "A"` to "B". -/
theorem c7_amended_witness :
    (step (step exRoom (.close 1 [])).1 (.close 1 [])).1 =
      (step exRoom (.close 1 [])).1 ∧
    (step (step exRoom (.close 1 [])).1 (.close 1 [])).2 = [⟨2, .leave "A", true⟩] := by
  have h := c7_amended_second_leave_rebroadcasts exRoom 1 ⟨"A", "red"⟩ rfl
  exact ⟨h.1, h.2.trans (by rfl)⟩

theorem mem_mapSet {α β : Type} [DecidableEq α] (m : List (α × β)) (k : α) (v : β)
    (p : α × β) (hp : p ∈ mapSet m k v) : p ∈ m ∨ p = (k, v) := by
  induction m with
  | nil => simpa [mapSet] using hp
  | cons hd tl ih =>
      obtain ⟨k1, v1⟩ := hd
      by_cases h1 : k1 = k
      · rw [mapSet, if_pos h1] at hp
        rcases List.mem_cons.mp hp with hh | hh
        · exact Or.inr hh
        · exact Or.inl (List.mem_cons_of_mem _ hh)
      · rw [mapSet, if_neg h1] at hp
        rcases List.mem_cons.mp hp with hh | hh
        · exact Or.inl (hh ▸ List.mem_cons_self _ _)
        · rcases ih hh with hh2 | hh2
          · exact Or.inl (List.mem_cons_of_mem _ hh2)
          · exact Or.inr hh2

theorem mem_mapDelete {α β : Type} [DecidableEq α] (m : List (α × β)) (k : α)
    (p : α × β) (hp : p ∈ mapDelete m k) : p ∈ m ∧ p.1 ≠ k := by
  rw [mapDelete_eq_filter] at hp
  have h := List.mem_filter.mp hp
  refine ⟨h.1, ?_⟩
  have h2 := h.2
  simpa using h2

theorem broadcast_preserves_registered (sender : String) (msg : ServerMsg)
    (fails : List Nat) (s : RoomState) (h : cursorsRegistered s = true) :
    cursorsRegistered (broadcast sender msg fails s).1 = true := by
  rw [cursorsRegistered, List.all_eq_true] at h ⊢
  intro p hp
  rw [broadcast, broadcastLoop_cursors] at hp
  have hmem := List.mem_filter.mp hp
  have hnotin : p.1 ∉ failedKeys s.sessions sender fails := by
    have h2 := hmem.2
    simpa using h2
  rw [broadcast, broadcastLoop_sessions, mapHas,
    mapGet_filter_not_mem _ _ _ hnotin]
  exact h p hmem.1

theorem step_preserves_registered (s : RoomState) (e : Event)
    (hwf : wfStep s e = true) (hinv : cursorsRegistered s = true) :
    cursorsRegistered (step s e).1 = true := by
  cases e with
  | join sid ws color fails =>
      rw [cursorsRegistered, List.all_eq_true] at hinv ⊢
      intro p hp
      by_cases hw : ws ∈ fails
      · simp only [step, if_pos hw] at hp ⊢
        rw [mapHas_mapSet]
        simp [hinv p hp]
      · simp only [step, if_neg hw] at hp ⊢
        rw [mapHas_mapSet]
        simp [hinv p hp]
  | message ws data fails =>
      cases hh : mapGet s.handlers ws with
      | none =>
          simp only [step, hh]
          exact hinv
      | some h =>
          cases data with
          | none =>
              simp only [step, hh]
              exact hinv
          | some d =>
              by_cases ht : d.type = .str "cursor"
              · have hreg : mapHas s.sessions h.sid = true := by
                  simpa [wfStep, hh, ht] using hwf
                rw [step_message_of_handler s ws d fails h hh ht]
                apply broadcast_preserves_registered
                rw [cursorsRegistered, List.all_eq_true] at hinv ⊢
                intro p hp
                dsimp only at hp ⊢
                rcases mem_mapSet _ _ _ _ hp with hmem | heq
                · exact hinv p hmem
                · rw [heq]
                  exact hreg
              · simp only [step, hh, if_neg ht]
                exact hinv
  | close ws fails =>
      cases hh : mapGet s.handlers ws with
      | none =>
          simp only [step, hh]
          exact hinv
      | some h =>
          rw [step_close_of_handler s ws fails h hh]
          apply broadcast_preserves_registered
          rw [cursorsRegistered, List.all_eq_true] at hinv ⊢
          intro p hp
          dsimp only at hp ⊢
          have hm := mem_mapDelete _ _ _ hp
          rw [mapHas, mapGet_delete_ne _ _ _ hm.2]
          exact hinv p hm.1

/-- C2 counterexample: the claim "a session removed from `sessions` is
never re-added to `cursors`" is false on a reachable trace: after
`evictPrefix` (send-failure eviction of "A") followed by `lateUpdate`
(an update from "A"'s still-open connection), "A" is absent from
`sessions` yet present in `cursors`. -/
theorem c2_counterexample :
    mapHas (run initialRoom (evictPrefix ++ [lateUpdate])).1.sessions "A" = false ∧
    mapHas (run initialRoom (evictPrefix ++ [lateUpdate])).1.cursors "A" = true := by
  decide

/-- C2 (amended): leave and send-failure eviction do remove a session
from both maps, and along any trace in which no cursor update is
processed for an already-unregistered session (`wfTrace`), every key of
`cursors` stays registered in `sessions`.  The unrestricted claim fails
only through such late updates, which re-add the evicted key to
`cursors` (see the counterexample). -/
theorem c2_amended_registered_invariant (s : RoomState) (es : List Event)
    (hwf : wfTrace s es = true) (hinv : cursorsRegistered s = true) :
    cursorsRegistered (run s es).1 = true := by
  induction es generalizing s with
  | nil => simpa [run] using hinv
  | cons e rest ih =>
      rw [wfTrace, Bool.and_eq_true] at hwf
      exact ih (step s e).1 hwf.2 (step_preserves_registered s e hwf.1 hinv)

/-- Witness for the amended C2: the eviction trace `evictPrefix` itself
is well-formed (every applied update comes from a registered session),
and the invariant holds at its final state. -/
theorem c2_amended_witness :
    wfTrace initialRoom evictPrefix = true ∧
    cursorsRegistered (run initialRoom evictPrefix).1 = true :=
  ⟨by decide,
   c2_amended_registered_invariant initialRoom evictPrefix (by decide) (by decide)⟩

theorem all_filter {α : Type} (l : List α) (P q : α → Bool) (h : l.all P = true) :
    (l.filter q).all P = true := by
  rw [List.all_eq_true] at h ⊢
  intro x hx
  exact h x (List.mem_of_mem_filter hx)

theorem all_mapSet {α β : Type} [DecidableEq α] (m : List (α × β)) (P : α × β → Bool)
    (k : α) (v : β) (h : m.all P = true) (hkv : P (k, v) = true) :
    (mapSet m k v).all P = true := by
  rw [List.all_eq_true] at h ⊢
  intro x hx
  rcases mem_mapSet _ _ _ _ hx with hm | he
  · exact h x hm
  · rw [he]
    exact hkv

theorem all_mapDelete {α β : Type} [DecidableEq α] (m : List (α × β)) (P : α × β → Bool)
    (k : α) (h : m.all P = true) : (mapDelete m k).all P = true := by
  rw [mapDelete_eq_filter]
  exact all_filter _ _ _ h

theorem invColor_broadcast (A : String → String) (sender : String) (msg : ServerMsg)
    (fails : List Nat) (s : RoomState) (h : invColor A s = true) :
    invColor A (broadcast sender msg fails s).1 = true := by
  rw [invColor, Bool.and_eq_true] at h
  rw [invColor, Bool.and_eq_true]
  constructor
  · rw [broadcast, broadcastLoop_handlers]
    exact h.1
  · rw [broadcast, broadcastLoop_cursors]
    exact all_filter _ _ _ h.2

theorem broadcast_sends_msgOK (P : ServerMsg → Bool) (sender : String) (msg : ServerMsg)
    (fails : List Nat) (s : RoomState) (hP : P msg = true) :
    ((broadcast sender msg fails s).2).all (fun m => P m.msg) = true := by
  rw [broadcast, broadcastLoop_sends, List.all_eq_true]
  intro m hm
  obtain ⟨p, hp, he⟩ := List.mem_map.mp hm
  rw [← he]
  exact hP

theorem handler_color (A : String → String) (s : RoomState) (ws : Nat) (h : Handler)
    (hh : mapGet s.handlers ws = some h) (hinv : invColor A s = true) :
    h.color = A h.sid := by
  rw [invColor, Bool.and_eq_true] at hinv
  have hx := (List.all_eq_true.mp hinv.1) (ws, h) (mapGet_mem _ _ _ hh)
  simpa using hx

/-- C8: colors are stable for a session's lifetime.  If `A` names the
color drawn at each sessionId's join (every join event of the trace
assigns `A sid`) and the starting state is color-consistent with `A`,
then after any sequence of events the state is still color-consistent —
every listener closure and every `cursors` entry carries its session's
assigned color — and every message sent along the way carries only
assigned colors: each `cursor` broadcast for a sessionId carries that
session's join color, and so does every entry of every `init`
snapshot. -/
theorem c8_color_stability (A : String → String) (s : RoomState) (es : List Event)
    (hj : joinsAgree A es = true) (hs : invColor A s = true) :
    invColor A (run s es).1 = true ∧
    ((run s es).2).all (fun m => msgColorOK A m.msg) = true := by
  induction es generalizing s with
  | nil => exact ⟨hs, rfl⟩
  | cons e rest ih =>
      rw [joinsAgree, List.all_cons, Bool.and_eq_true] at hj
      have hs12 : (s.handlers.all fun p => p.2.color == A p.2.sid) = true ∧
          s.cursors.all (cursorColorOK A) = true := by
        have hs2 := hs
        rw [invColor, Bool.and_eq_true] at hs2
        exact hs2
      have hstep : invColor A (step s e).1 = true ∧
          ((step s e).2).all (fun m => msgColorOK A m.msg) = true := by
        cases e with
        | join sid ws color fails =>
            have hcol : (color == A sid) = true := hj.1
            by_cases hw : ws ∈ fails
            · refine ⟨?_, ?_⟩
              · simp only [step, if_pos hw]
                exact hs
              · simp only [step, if_pos hw, List.all_cons, List.all_nil, Bool.and_true]
                exact hs12.2
            · refine ⟨?_, ?_⟩
              · simp only [step, if_neg hw]
                rw [invColor, Bool.and_eq_true]
                refine ⟨?_, hs12.2⟩
                rw [List.all_append]
                simp [hs12.1, hcol]
              · simp only [step, if_neg hw, List.all_cons, List.all_nil, Bool.and_true]
                exact hs12.2
        | message ws data fails =>
            cases hhh : mapGet s.handlers ws with
            | none =>
                simp only [step, hhh]
                exact ⟨hs, rfl⟩
            | some h =>
                cases data with
                | none =>
                    simp only [step, hhh]
                    exact ⟨hs, rfl⟩
                | some d =>
                    by_cases ht : d.type = .str "cursor"
                    · have hcol : h.color = A h.sid := handler_color A s ws h hhh hs
                      rw [step_message_of_handler s ws d fails h hhh ht]
                      constructor
                      · apply invColor_broadcast
                        rw [invColor, Bool.and_eq_true]
                        exact ⟨hs12.1,
                          all_mapSet _ _ _ _ hs12.2 (by simp [cursorColorOK, hcol])⟩
                      · apply broadcast_sends_msgOK
                        simp [msgColorOK, hcol]
                    · simp only [step, hhh, if_neg ht]
                      exact ⟨hs, rfl⟩
        | close ws fails =>
            cases hhh : mapGet s.handlers ws with
            | none =>
                simp only [step, hhh]
                exact ⟨hs, rfl⟩
            | some h =>
                rw [step_close_of_handler s ws fails h hhh]
                constructor
                · apply invColor_broadcast
                  rw [invColor, Bool.and_eq_true]
                  exact ⟨hs12.1, all_mapDelete _ _ _ hs12.2⟩
                · apply broadcast_sends_msgOK
                  rfl
      have hrest := ih (step s e).1 hj.2 hstep.1
      refine ⟨hrest.1, ?_⟩
      show ((step s e).2 ++ (run (step s e).1 rest).2).all
        (fun m => msgColorOK A m.msg) = true
      rw [List.all_append, hstep.2, hrest.2]
      rfl

/-- Witness for C8: along the concrete trace `evictPrefix ++
[lateUpdate]` with join colors given by the assignment "A" ↦ red,
otherwise blue, the final state and every sent message carry only
assigned colors. -/
theorem c8_witness :
    joinsAgree (fun sid => if sid = "A" then "red" else "blue")
      (evictPrefix ++ [lateUpdate]) = true ∧
    invColor (fun sid => if sid = "A" then "red" else "blue")
      (run initialRoom (evictPrefix ++ [lateUpdate])).1 = true ∧
    ((run initialRoom (evictPrefix ++ [lateUpdate])).2).all
      (fun m => msgColorOK (fun sid => if sid = "A" then "red" else "blue") m.msg) =
      true := by
  have h := c8_color_stability (fun sid => if sid = "A" then "red" else "blue")
    initialRoom (evictPrefix ++ [lateUpdate]) (by decide) (by decide)
  exact ⟨by decide, h.1, h.2⟩

theorem run_cons (s : RoomState) (e : Event) (es : List Event) :
    run s (e :: es) =
      ((run (step s e).1 es).1, (step s e).2 ++ (run (step s e).1 es).2) := rfl

theorem step_join_no_fail (s : RoomState) (sid : String) (ws : Nat) (color : String) :
    step s (.join sid ws color []) =
      ({ s with sessions := mapSet s.sessions sid ⟨ws, color⟩,
                handlers := s.handlers ++ [(ws, ⟨sid, color⟩)] },
       [⟨ws, .init sid s.cursors, true⟩]) := by
  simp [step]

theorem run_joinEvents_state (ps : List Participant) (s : RoomState) :
    (run s (joinEvents ps)).1 =
      { s with
        sessions := ps.foldl (fun m p => mapSet m p.sid ⟨p.ws, p.color⟩) s.sessions,
        handlers := s.handlers ++ ps.map (fun p => (p.ws, ⟨p.sid, p.color⟩)) } := by
  induction ps generalizing s with
  | nil => simp [run, joinEvents]
  | cons p rest ih =>
      rw [joinEvents, List.map_cons, run_cons, step_join_no_fail]
      dsimp only
      rw [show (joinEvents rest : List Event) = rest.map
        (fun p => .join p.sid p.ws p.color []) from rfl] at ih
      rw [ih]
      apply roomState_eq_of_fields
      · rfl
      · rfl
      · dsimp only
        rw [List.append_assoc]
        rfl

theorem run_updateEvents_state : ∀ (ps : List Participant) (s : RoomState),
    (∀ p ∈ ps, mapGet s.handlers p.ws = some ⟨p.sid, p.color⟩) →
    (run s (updateEvents ps)).1 =
      { s with
        cursors := ps.foldl (fun c p => mapSet c p.sid ⟨p.x, p.y, p.color⟩) s.cursors } := by
  intro ps
  induction ps with
  | nil => intro s _; simp [run, updateEvents]
  | cons p rest ih =>
      intro s hh
      rw [updateEvents, List.map_cons, run_cons]
      dsimp only
      have hp := hh p (List.mem_cons_self _ _)
      have hstep := step_update_no_fail s p.ws ⟨.str "cursor", p.x, p.y, .null, .null⟩
        ⟨p.sid, p.color⟩ hp rfl
      dsimp only at hstep
      rw [show (updateEvents rest : List Event) = rest.map
        (fun p => .message p.ws (some ⟨.str "cursor", p.x, p.y, .null, .null⟩) [])
        from rfl] at ih
      rw [hstep, ih ⟨s.sessions, mapSet s.cursors p.sid ⟨p.x, p.y, p.color⟩, s.handlers⟩
        (fun q hq => hh q (List.mem_cons_of_mem _ hq))]
      apply roomState_eq_of_fields
      · rfl
      · rfl
      · rfl

theorem foldl_mapSet_fresh {β : Type} (f : Participant → β) :
    ∀ (ps : List Participant) (m : List (String × β)),
    (ps.map Participant.sid).Nodup → (∀ p ∈ ps, mapGet m p.sid = none) →
    ps.foldl (fun acc p => mapSet acc p.sid (f p)) m =
      m ++ ps.map (fun p => (p.sid, f p)) := by
  intro ps
  induction ps with
  | nil => intro m _ _; simp
  | cons p rest ih =>
      intro m hnd hfresh
      have hnd2 := List.nodup_cons.mp hnd
      have hfresh2 : ∀ q ∈ rest, mapGet (m ++ [(p.sid, f p)]) q.sid = none := by
        intro q hq
        have hq0 := hfresh q (List.mem_cons_of_mem _ hq)
        have hne : ¬ p.sid = q.sid := by
          intro he
          exact hnd2.1 (he ▸ List.mem_map_of_mem Participant.sid hq)
        rw [mapGet_append, hq0]
        simp [mapGet, hne]
      rw [List.foldl_cons, mapSet_of_fresh _ _ _ (hfresh p (List.mem_cons_self _ _)),
        ih (m ++ [(p.sid, f p)]) hnd2.2 hfresh2]
      simp

theorem mapGet_join_handlers : ∀ (ps : List Participant) (p : Participant),
    (ps.map Participant.ws).Nodup → p ∈ ps →
    mapGet (ps.map (fun q => (q.ws, (⟨q.sid, q.color⟩ : Handler)))) p.ws =
      some ⟨p.sid, p.color⟩ := by
  intro ps
  induction ps with
  | nil =>
      intro p _ hp
      simp at hp
  | cons q rest ih =>
      intro p hnd hp
      have hnd2 := List.nodup_cons.mp hnd
      rw [List.map_cons]
      by_cases hws : q.ws = p.ws
      · rcases List.mem_cons.mp hp with he | hm
        · rw [he]
          simp [mapGet]
        · exact absurd (hws ▸ List.mem_map_of_mem Participant.ws hm) hnd2.1
      · have hm : p ∈ rest := by
          rcases List.mem_cons.mp hp with he | hm2
          · exact absurd (by rw [he]) hws
          · exact hm2
        rw [show mapGet ((q.ws, (⟨q.sid, q.color⟩ : Handler)) ::
          rest.map (fun q => (q.ws, (⟨q.sid, q.color⟩ : Handler)))) p.ws =
          mapGet (rest.map (fun q => (q.ws, (⟨q.sid, q.color⟩ : Handler)))) p.ws
          from by simp [mapGet, hws]]
        exact ih p hnd2.2 hm

/-- C3: join snapshots are complete and point-in-time.  After the
participants `ps` (pairwise-distinct sessionIds and connections) join
and each reports its cursor once, the state's `cursors` is exactly one
entry per participant with its reported coordinates and assigned color,
and a subsequent join sends exactly one message — an `init` to the new
connection carrying the fresh sessionId and exactly those entries.  The
payload is a value copied at join time, so later map mutations cannot
alter it.  Moreover (last conjunct) an UpdateCursor always overwrites
the sender's `cursors` entry with the just-reported coordinates, so the
snapshot always carries each session's most recently reported x, y. -/
theorem c3_join_init_snapshot (ps : List Participant) (newSid : String) (newWs : Nat)
    (newColor : String) (hsid : (ps.map Participant.sid).Nodup)
    (hws : (ps.map Participant.ws).Nodup) :
    (run initialRoom (joinEvents ps ++ updateEvents ps)).1.cursors =
      expectedCursors ps ∧
    (step (run initialRoom (joinEvents ps ++ updateEvents ps)).1
        (.join newSid newWs newColor [])).2 =
      [⟨newWs, .init newSid (expectedCursors ps), true⟩] ∧
    (∀ (s : RoomState) (ws : Nat) (d : ClientData) (fails : List Nat) (h : Handler),
      mapGet s.handlers ws = some h → d.type = .str "cursor" →
      mapGet (step s (.message ws (some d) fails)).1.cursors h.sid =
        some ⟨d.x, d.y, h.color⟩) := by
  have hjoinstate : (run initialRoom (joinEvents ps)).1 =
      ⟨ps.foldl (fun m p => mapSet m p.sid ⟨p.ws, p.color⟩) [],
       [], ps.map (fun p => (p.ws, ⟨p.sid, p.color⟩))⟩ := by
    rw [run_joinEvents_state]
    apply roomState_eq_of_fields
    · rfl
    · rfl
    · simp [initialRoom]
  have hh : ∀ p ∈ ps, mapGet (run initialRoom (joinEvents ps)).1.handlers p.ws =
      some ⟨p.sid, p.color⟩ := by
    intro p hp
    rw [hjoinstate]
    exact mapGet_join_handlers ps p hws hp
  have hcurs : (run initialRoom (joinEvents ps ++ updateEvents ps)).1.cursors =
      expectedCursors ps := by
    rw [run_append]
    dsimp only
    rw [run_updateEvents_state ps _ hh]
    dsimp only
    rw [hjoinstate]
    dsimp only
    rw [foldl_mapSet_fresh (fun p => (⟨p.x, p.y, p.color⟩ : Cursor)) ps [] hsid
      (fun p _ => rfl)]
    rfl
  refine ⟨hcurs, ?_, ?_⟩
  · rw [step_join_no_fail]
    dsimp only
    rw [hcurs]
  · intro s ws d fails h hh2 ht
    rw [step_message_of_handler s ws d fails h hh2 ht, broadcast, broadcastLoop_cursors,
      mapGet_filter_not_mem _ _ _ (sender_not_mem_failedKeys _ _ _)]
    exact mapGet_set_self s.cursors h.sid ⟨d.x, d.y, h.color⟩

/-- Witness for C3 at a concrete input: sessions "A" and "B" join and
report cursors; a joining "C" receives exactly one `init` with both
entries, their latest coordinates and join colors; and an explicit
overwrite of "A"'s entry is reflected in `cursors`. -/
theorem c3_witness :
    (run initialRoom
        (joinEvents [⟨"A", 1, "red", .num 10, .num 20⟩, ⟨"B", 2, "blue", .num 30, .num 40⟩]
          ++ updateEvents
            [⟨"A", 1, "red", .num 10, .num 20⟩, ⟨"B", 2, "blue", .num 30, .num 40⟩])).1.cursors =
      [("A", ⟨.num 10, .num 20, "red"⟩), ("B", ⟨.num 30, .num 40, "blue"⟩)] ∧
    (step (run initialRoom
        (joinEvents [⟨"A", 1, "red", .num 10, .num 20⟩, ⟨"B", 2, "blue", .num 30, .num 40⟩]
          ++ updateEvents
            [⟨"A", 1, "red", .num 10, .num 20⟩, ⟨"B", 2, "blue", .num 30, .num 40⟩])).1
        (.join "C" 3 "green" [])).2 =
      [⟨3, .init "C" [("A", ⟨.num 10, .num 20, "red"⟩), ("B", ⟨.num 30, .num 40, "blue"⟩)],
        true⟩] ∧
    mapGet (step exRoom
        (.message 1 (some ⟨.str "cursor", .num 77, .num 88, .null, .null⟩) [])).1.cursors
      "A" = some ⟨.num 77, .num 88, "red"⟩ := by
  have h := c3_join_init_snapshot
    [⟨"A", 1, "red", .num 10, .num 20⟩, ⟨"B", 2, "blue", .num 30, .num 40⟩]
    "C" 3 "green" (by decide) (by decide)
  exact ⟨h.1, h.2.1, h.2.2 exRoom 1 ⟨.str "cursor", .num 77, .num 88, .null, .null⟩ []
    ⟨"A", "red"⟩ rfl rfl⟩
